import Mathlib

/-
Verification of the frame-synchronization core of the Multi-Player-Tank-War
repository.  The definitions below are shallow embeddings of the Python
sources:

  * `server/frame_sync/frame_manager.py`  (FrameManager)
  * `server/main.py`                      (GameServer admission and tick loop)
  * `client/frame_sync/logical_input_manager.py` (LogicalInputManager)
  * `client/frame_sync/frame_executor.py` (FrameExecutor)
  * `common/deterministic_engine.py`      (DeterministicRandom)

Python dictionaries and defaultdicts are modelled as association lists over
`Nat` keys; defaultdict indexing is modelled by `ddIndex`, which inserts the
default value on a missing key and returns the possibly-grown dictionary, so
that purity of read-side queries is a theorem and not a modelling artifact.
Client identifiers (uuid strings in the source) are modelled as opaque `Nat`
values.  Wall-clock quantities (milliseconds) live in a linearly ordered
additive commutative group, since the embedded code only compares, adds and
subtracts them.
-/

set_option autoImplicit false

namespace TankWar

/-- Movement component of a raw input: one of stop/up/down/left/right. -/
inductive Movement where
  | stop
  | up
  | down
  | left
  | right
  deriving DecidableEq, Repr

/-- Raw input record as carried by the wire protocol. -/
structure RawInput where
  movement : Movement
  shoot : Bool
  deriving DecidableEq, Repr

/-- The empty raw input, the client-side `default_input` value. -/
def defaultInput : RawInput := ⟨Movement.stop, false⟩

/-- Embeds `FrameManager.is_input_empty`: an input is empty when its movement
is stop and it does not shoot. -/
def is_input_empty (i : RawInput) : Bool :=
  i.movement == Movement.stop && !i.shoot

/-- Lookup in a Python-dict model (association list, first binding wins). -/
def ddFind {β : Type} (d : List (Nat × β)) (k : Nat) : Option β :=
  match d with
  | [] => none
  | p :: rest => if p.1 = k then some p.2 else ddFind rest k

/-- Python `k in d` membership test; it never mutates the dictionary. -/
def ddMem {β : Type} (d : List (Nat × β)) (k : Nat) : Bool :=
  (ddFind d k).isSome

/-- Python `d[k] = v`: overwrite the binding when present, else append it. -/
def ddWrite {β : Type} (d : List (Nat × β)) (k : Nat) (v : β) : List (Nat × β) :=
  match d with
  | [] => [(k, v)]
  | p :: rest => if p.1 = k then (k, v) :: rest else p :: ddWrite rest k v

/-- Python `d[k]` on a `defaultdict`: return the stored value, or insert the
default and return it when the key is missing.  The possibly-grown dictionary
is returned alongside the value. -/
def ddIndex {β : Type} (dflt : β) (d : List (Nat × β)) (k : Nat) :
    β × List (Nat × β) :=
  match ddFind d k with
  | some v => (v, d)
  | none => (dflt, d ++ [(k, dflt)])

/-- Python `del d[k]`. -/
def ddErase {β : Type} (d : List (Nat × β)) (k : Nat) : List (Nat × β) :=
  d.filter (fun p => p.1 != k)

/-- One fold step of `LogicalInputManager.merge_inputs`: a later movement
overrides the accumulator unless it is stop, and shoot is sticky. -/
def mergeStep (acc : RawInput) (i : RawInput) : RawInput :=
  { movement := if i.movement ≠ Movement.stop then i.movement else acc.movement
    shoot := if i.shoot then true else acc.shoot }

/-- The merged input computed by `LogicalInputManager.merge_inputs`: the fold
of the per-turn list starting from the default (empty) input. -/
def mergeList (l : List RawInput) : RawInput :=
  l.foldl mergeStep defaultInput

/-- The client-side table `LogicalInputManager.client_inputs`. -/
abbrev LogicalInputs := List (Nat × RawInput)

/-- Embeds `LogicalInputManager.merge_inputs`: a no-op on an empty list,
otherwise the fold result is stored for the client. -/
def merge_inputs (m : LogicalInputs) (cid : Nat) (l : List RawInput) :
    LogicalInputs :=
  if l.isEmpty then m else ddWrite m cid (mergeList l)

/-- Embeds `LogicalInputManager.set_input_frame`: merge every client's list
from the received input-frame row. -/
def set_input_frame (m : LogicalInputs) (data : List (Nat × List RawInput)) :
    LogicalInputs :=
  data.foldl (fun m p => merge_inputs m p.1 p.2) m

/-- Embeds `LogicalInputManager.set_non_input`: clear the table. -/
def set_non_input : LogicalInputs := []

/-- Embeds `LogicalInputManager.get_client_input`: the stored merged input, or
a copy of the default empty input for a client absent from the table. -/
def get_client_input (m : LogicalInputs) (cid : Nat) : RawInput :=
  (ddFind m cid).getD defaultInput

/-- Movement component of a fold of `mergeStep`: the movement of the last
element whose movement is not stop, else the accumulator's movement. -/
lemma foldl_mergeStep_movement (L : List RawInput) (acc : RawInput) :
    (L.foldl mergeStep acc).movement =
      match L.reverse.find? (fun i => i.movement != Movement.stop) with
      | some i => i.movement
      | none => acc.movement := by
  induction L using List.reverseRecOn generalizing acc with
  | nil => rfl
  | append_singleton l a ih =>
    rw [List.foldl_append]
    by_cases h : a.movement = Movement.stop
    · simp [List.find?, h, mergeStep, ih]
    · simp [List.find?, h, mergeStep]

/-- Shoot component of a fold of `mergeStep`: true iff the accumulator shoots
or some element of the list shoots. -/
lemma foldl_mergeStep_shoot (L : List RawInput) (acc : RawInput) :
    (L.foldl mergeStep acc).shoot = (acc.shoot || L.any (fun i => i.shoot)) := by
  induction L using List.reverseRecOn generalizing acc with
  | nil => simp
  | append_singleton l a ih =>
    rw [List.foldl_append]
    by_cases h : a.shoot
    · simp [mergeStep, h, ih]
    · simp [mergeStep, h, ih]

/-- Appending the empty input to a fold of `mergeStep` changes nothing. -/
lemma foldl_mergeStep_concat_default (L : List RawInput) (acc : RawInput) :
    (L ++ [defaultInput]).foldl mergeStep acc = L.foldl mergeStep acc := by
  rw [List.foldl_append]
  simp [mergeStep, defaultInput]

/-- C1: merging a per-turn input list yields a single raw input whose movement
is the movement of the last list element with non-stop movement (or stop when
there is none) and whose shoot is true iff some element shoots; appending the
empty input is a no-op for the merge, the merge of the empty list is the empty
input, and a client absent from the per-turn table is read back as the empty
input. -/
theorem C1_merge_inputs_correct :
    (∀ L : List RawInput,
        (mergeList L).movement =
          (match L.reverse.find? (fun i => i.movement != Movement.stop) with
            | some i => i.movement
            | none => Movement.stop) ∧
        (mergeList L).shoot = L.any (fun i => i.shoot) ∧
        mergeList (L ++ [defaultInput]) = mergeList L) ∧
    mergeList [] = defaultInput ∧
    (∀ (m : LogicalInputs) (cid : Nat), ddFind m cid = none →
        get_client_input m cid = defaultInput) := by
  refine ⟨fun L => ⟨?_, ?_, ?_⟩, rfl, fun m cid h => ?_⟩
  · exact foldl_mergeStep_movement L defaultInput
  · have := foldl_mergeStep_shoot L defaultInput
    simpa [defaultInput] using this
  · exact foldl_mergeStep_concat_default L defaultInput
  · simp [get_client_input, h]

/-- Witness for C1 at concrete inputs. -/
theorem C1_merge_inputs_correct_witness :
    get_client_input [] 7 = defaultInput ∧
    (mergeList [⟨Movement.up, false⟩, ⟨Movement.stop, true⟩]).movement
      = Movement.up :=
  ⟨C1_merge_inputs_correct.2.2 [] 7 rfl,
   by rw [(C1_merge_inputs_correct.1 [⟨Movement.up, false⟩, ⟨Movement.stop, true⟩]).1]; rfl⟩

/-- A per-turn row: client id mapped to its per-turn list of raw inputs. -/
abbrev Row := List (Nat × List RawInput)

/-- The server turn table (`input_history`): turn id mapped to its row. -/
abbrev History := List (Nat × Row)

/-- State of the server `FrameManager` (server/frame_sync/frame_manager.py).
The `clients` dictionary maps client ids to connection sessions in the source;
only its key set is relevant here, so it is modelled as the ordered list of
keys. -/
structure FrameManager where
  current_frame : Nat
  turn_size : Nat
  clients : List Nat
  input_buffer : Row
  input_history : History
  ready_clients : List Nat
  game_started : Bool
  game_start_time : Int
  last_broadcast_frame : Int
  last_processed_turn : Int
  deriving DecidableEq, Repr

/-- The state built by `FrameManager.__init__` (turn size defaults to 5). -/
def initFM (ts : Nat) : FrameManager :=
  { current_frame := 0
    turn_size := ts
    clients := []
    input_buffer := []
    input_history := []
    ready_clients := []
    game_started := false
    game_start_time := 0
    last_broadcast_frame := -1
    last_processed_turn := -1 }

/-- Embeds `FrameManager.add_client`: `self.clients[client_id] = session`. -/
def add_client (fm : FrameManager) (c : Nat) : FrameManager :=
  { fm with clients := if fm.clients.contains c then fm.clients
                       else fm.clients ++ [c] }

/-- Embeds `FrameManager.remove_client`: delete the client from the clients
dictionary, the staging buffer and the ready set, when present. -/
def remove_client (fm : FrameManager) (c : Nat) : FrameManager :=
  { fm with
      clients := fm.clients.filter (fun x => x != c)
      input_buffer := if ddMem fm.input_buffer c then ddErase fm.input_buffer c
                      else fm.input_buffer
      ready_clients := fm.ready_clients.filter (fun x => x != c) }

/-- Python `self.input_buffer[client_id].append(inputs)` on the staging
defaultdict: index (inserting an empty list when missing) and write back the
extended list. -/
def ddAppend (d : Row) (c : Nat) (i : RawInput) : Row :=
  let p := ddIndex [] d c
  ddWrite p.2 c (p.1 ++ [i])

/-- Embeds `FrameManager.receive_input`: empty inputs are dropped, non-empty
inputs are appended to the sender's staging list. -/
def receive_input (fm : FrameManager) (c : Nat) (i : RawInput) : FrameManager :=
  if is_input_empty i then fm
  else { fm with input_buffer := ddAppend fm.input_buffer c i }

/-- Python `self.input_history[turn_id][client_id] = v` on the nested
defaultdict: index the outer dict (inserting an empty row when missing) and
write the binding into that row. -/
def historySetIn (H : History) (t c : Nat) (v : List RawInput) : History :=
  let p := ddIndex [] H t
  ddWrite p.2 t (ddWrite p.1 c v)

/-- Python `_ = self.input_history[turn_id][client_id]` in
`FrameManager.start_game`: both defaultdict indexings, performed solely for
their insertion side effect. -/
def historyTouch (H : History) (t c : Nat) : History :=
  let p := ddIndex [] H t
  let q := ddIndex [] p.1 c
  ddWrite p.2 t q.2

/-- Events observable at the server boundary during one tick-loop iteration. -/
structure InputFrameMsg where
  current_frame : Nat
  inputs : Row
  deriving DecidableEq, Repr

/-- Observable server actions: finalization of a turn (staging buffer moved to
the turn table) and broadcast of an `input_frame` message. -/
inductive ServerEvent where
  | finalize (turn : Nat)
  | broadcast (msg : InputFrameMsg)
  deriving DecidableEq, Repr

/-- Embeds `FrameManager.process_inputs_for_turn`: already-processed turns are
skipped, otherwise every non-empty staging list is copied into the turn-table
row, the staging buffer is cleared and `last_processed_turn` is updated.  A
`finalize` event is emitted exactly when the move happens. -/
def process_inputs_for_turn (fm : FrameManager) (turn_id : Nat) :
    FrameManager × List ServerEvent :=
  if (turn_id : Int) ≤ fm.last_processed_turn then (fm, [])
  else
    let H := fm.input_buffer.foldl
      (fun H p => if p.2.isEmpty then H else historySetIn H turn_id p.1 p.2)
      fm.input_history
    ({ fm with
        input_history := H
        input_buffer := []
        last_processed_turn := (turn_id : Int) },
     [ServerEvent.finalize turn_id])

/-- Embeds `FrameManager.mark_client_ready` (the mutation part). -/
def mark_client_ready (fm : FrameManager) (c : Nat) : FrameManager :=
  { fm with ready_clients := if fm.ready_clients.contains c then fm.ready_clients
                             else fm.ready_clients ++ [c] }

/-- Embeds `FrameManager.start_game`: record the start flag and start time,
then touch the turn-0 history row of every client so each gets an empty
list. -/
def start_game (fm : FrameManager) (now delay_ms : Int) : FrameManager × Int :=
  let st := now + delay_ms
  let H := fm.clients.foldl (fun H c => historyTouch H 0 c) fm.input_history
  ({ fm with game_started := true, game_start_time := st, input_history := H },
   st)

/-- Embeds `FrameManager.reset`: everything except the turn size and the
connected-clients dictionary is restored to its initial value. -/
def resetFM (fm : FrameManager) : FrameManager :=
  { fm with
      current_frame := 0
      input_buffer := []
      input_history := []
      ready_clients := []
      game_started := false
      game_start_time := 0
      last_broadcast_frame := -1
      last_processed_turn := -1 }

/-- The body of `FrameManager.get_client_inputs_for_turn` for one client:
`if turn_id in H and client_id in H[turn_id]: H[turn_id][client_id] else []`.
Every Python defaultdict indexing is modelled by `ddIndex` and the possibly
mutated dictionaries are threaded through, so that the absence of insertions
is proved rather than assumed. -/
def giOne (H : History) (t c : Nat) : List RawInput × History :=
  if ddMem H t then
    let p := ddIndex [] H t
    if ddMem p.1 c then
      let q := ddIndex [] p.2 t
      let r := ddIndex [] q.1 c
      (r.1, ddWrite q.2 t r.2)
    else ([], p.2)
  else ([], H)

/-- One iteration of the client loop in `get_client_inputs_for_turn`: extend
the row under construction with this client's entry and thread the turn
table. -/
def giStep (t : Nat) (acc : Row × History) (c : Nat) : Row × History :=
  let p := giOne acc.2 t c
  (acc.1 ++ [(c, p.1)], p.2)

/-- Embeds `FrameManager.get_client_inputs_for_turn`: build a row that maps
every connected client to its history list for the turn, or to the empty
list. -/
def get_client_inputs_for_turn (fm : FrameManager) (t : Nat) :
    Row × FrameManager :=
  let res := fm.clients.foldl (giStep t) ([], fm.input_history)
  (res.1, { fm with input_history := res.2 })

/-- Embeds `FrameManager.prepare_input_broadcast`: compute the turn of the
current frame, collect its row, record the broadcast frame and build the
`input_frame` message. -/
def prepare_input_broadcast (fm : FrameManager) : InputFrameMsg × FrameManager :=
  let current_turn := fm.current_frame / fm.turn_size
  let cf := current_turn * fm.turn_size
  let p := get_client_inputs_for_turn fm current_turn
  (⟨cf, p.1⟩, { p.2 with last_broadcast_frame := (cf : Int) })

/-- Embeds `FrameManager.collect_inputs_for_frame`: the response row for one
requested frame, keyed by that frame. -/
def collect_inputs_for_frame (fm : FrameManager) (frame : Nat) :
    (Nat × Row) × FrameManager :=
  let turn := frame / fm.turn_size
  let p := get_client_inputs_for_turn fm turn
  ((frame, p.1), p.2)

/-- Embeds the `request_frames` branch of `GameServer.process_message`: one
`collect_inputs_for_frame` per requested frame, accumulated into the
`frame_response` payload. -/
def handle_request_frames (fm : FrameManager) (frames : List Nat) :
    List (Nat × Row) × FrameManager :=
  frames.foldl
    (fun (acc : List (Nat × Row) × FrameManager) f =>
      let p := collect_inputs_for_frame acc.2 f
      (acc.1 ++ [p.1], p.2))
    ([], fm)

/-- Embeds the frame-update part of one `GameServer.game_loop` iteration,
given the newly computed `frames_should_have_passed` value `F`: when `F` is
ahead of `current_frame`, advance to it; when `F` is a turn boundary, process
the turn's inputs and then broadcast the input frame. -/
def game_tick (fm : FrameManager) (F : Nat) : FrameManager × List ServerEvent :=
  if fm.current_frame < F then
    let fm1 := { fm with current_frame := F }
    if F % fm1.turn_size = 0 then
      let t := F / fm1.turn_size
      let p := process_inputs_for_turn fm1 t
      let q := prepare_input_broadcast p.1
      (q.2, p.2 ++ [ServerEvent.broadcast q.1])
    else (fm1, [])
  else (fm, [])

/-- The pure read of the turn table used to state the query theorems: the
stored list for turn `t` and client `c`, if both keys are present. -/
def historyLookup (H : History) (t c : Nat) : Option (List RawInput) :=
  match ddFind H t with
  | none => none
  | some row => ddFind row c

/-- A successful lookup designates an actual binding of the dictionary. -/
lemma ddFind_mem {β : Type} {d : List (Nat × β)} {k : Nat} {v : β}
    (h : ddFind d k = some v) : (k, v) ∈ d := by
  induction d with
  | nil => simp [ddFind] at h
  | cons p rest ih =>
    rw [ddFind] at h
    by_cases hk : p.1 = k
    · rw [if_pos hk] at h
      injection h with h2
      rw [← h2, ← hk]
      simp
    · rw [if_neg hk] at h
      exact List.mem_cons_of_mem p (ih h)

/-- Bindings after a dictionary write: the written binding or an old one. -/
lemma mem_ddWrite {β : Type} {d : List (Nat × β)} {k : Nat} {v : β}
    {q : Nat × β} (h : q ∈ ddWrite d k v) : q = (k, v) ∨ q ∈ d := by
  induction d with
  | nil => simpa [ddWrite] using h
  | cons p rest ih =>
    rw [ddWrite] at h
    by_cases hk : p.1 = k
    · rw [if_pos hk] at h
      rcases List.mem_cons.mp h with h1 | h1
      · exact Or.inl h1
      · exact Or.inr (List.mem_cons_of_mem p h1)
    · rw [if_neg hk] at h
      rcases List.mem_cons.mp h with h1 | h1
      · exact Or.inr (h1 ▸ List.mem_cons_self p rest)
      · rcases ih h1 with h2 | h2
        · exact Or.inl h2
        · exact Or.inr (List.mem_cons_of_mem p h2)

/-- Writing back the value a key already holds leaves the dictionary
unchanged. -/
lemma ddWrite_find_self {β : Type} {d : List (Nat × β)} {k : Nat} {v : β}
    (h : ddFind d k = some v) : ddWrite d k v = d := by
  induction d with
  | nil => simp [ddFind] at h
  | cons p rest ih =>
    rw [ddFind] at h
    rw [ddWrite]
    by_cases hk : p.1 = k
    · rw [if_pos hk] at h
      rw [if_pos hk]
      cases h
      rw [← hk]
    · rw [if_neg hk] at h
      rw [if_neg hk, ih h]

/-- A write is visible to a subsequent lookup of the same key. -/
lemma ddFind_ddWrite_self {β : Type} (d : List (Nat × β)) (k : Nat) (v : β) :
    ddFind (ddWrite d k v) k = some v := by
  induction d with
  | nil => simp [ddWrite, ddFind]
  | cons p rest ih =>
    rw [ddWrite]
    by_cases hk : p.1 = k
    · rw [if_pos hk, ddFind, if_pos rfl]
    · rw [if_neg hk, ddFind, if_neg hk, ih]

/-- The single-client read of the turn table returns the stored list (or the
empty list) and returns the turn table unchanged: the guards in the source
keep the defaultdict indexings away from missing keys. -/
lemma giOne_spec (H : History) (t c : Nat) :
    giOne H t c = ((historyLookup H t c).getD [], H) := by
  rw [giOne, historyLookup]
  cases hH : ddFind H t with
  | none => simp [ddMem, hH]
  | some row =>
    have hmem : ddMem H t = true := by simp [ddMem, hH]
    simp only [hmem, if_true, ddIndex, hH]
    cases hc : ddFind row c with
    | none => simp [ddMem, hc]
    | some v =>
      have hcm : ddMem row c = true := by simp [ddMem, hc]
      simp [hcm, hc, ddWrite_find_self hH]

/-- One `giStep` iteration in explicit form. -/
lemma giStep_spec (t : Nat) (acc : Row) (H : History) (c : Nat) :
    giStep t (acc, H) c = (acc ++ [(c, (historyLookup H t c).getD [])], H) := by
  simp [giStep, giOne_spec]

/-- Unfolding of the fold inside `get_client_inputs_for_turn`: since each
single-client read is pure, the fold is a map over the client list. -/
lemma gi_fold (t : Nat) (cs : List Nat) (H : History) (acc : Row) :
    cs.foldl (giStep t) (acc, H)
      = (acc ++ cs.map (fun c => (c, (historyLookup H t c).getD [])), H) := by
  induction cs generalizing acc with
  | nil => simp
  | cons c rest ih =>
    rw [List.foldl_cons, giStep_spec, ih]
    simp

/-- The row produced by `get_client_inputs_for_turn` together with the proof
that the manager state is returned unchanged. -/
lemma get_client_inputs_for_turn_spec (fm : FrameManager) (t : Nat) :
    get_client_inputs_for_turn fm t
      = (fm.clients.map (fun c => (c, (historyLookup fm.input_history t c).getD [])),
         fm) := by
  rw [get_client_inputs_for_turn]
  simp only [gi_fold]
  simp

/-- C10: the read-side queries `get_client_inputs_for_turn` and
`collect_inputs_for_frame` leave the whole `FrameManager` state unchanged (in
particular the `input_history` defaultdict gains no new keys), and querying a
turn with no stored row yields a row mapping every connected client to the
empty list. -/
theorem C10_read_queries_pure :
    ∀ (fm : FrameManager) (t f : Nat),
      (get_client_inputs_for_turn fm t).2 = fm ∧
      (collect_inputs_for_frame fm f).2 = fm ∧
      (collect_inputs_for_frame fm f).1
        = (f, fm.clients.map (fun c =>
            (c, (historyLookup fm.input_history (f / fm.turn_size) c).getD []))) ∧
      (ddMem fm.input_history t = false →
        (get_client_inputs_for_turn fm t).1
          = fm.clients.map (fun c => (c, ([] : List RawInput)))) := by
  intro fm t f
  refine ⟨?_, ?_, ?_, ?_⟩
  · rw [get_client_inputs_for_turn_spec]
  · rw [collect_inputs_for_frame, get_client_inputs_for_turn_spec]
  · rw [collect_inputs_for_frame, get_client_inputs_for_turn_spec]
  · intro h
    rw [get_client_inputs_for_turn_spec]
    have hfind : ddFind fm.input_history t = none := by
      cases hf : ddFind fm.input_history t with
      | none => rfl
      | some row => simp [ddMem, hf] at h
    simp [historyLookup, hfind]

/-- Witness for C10 at a concrete manager state whose history has no row for
the queried turn. -/
theorem C10_read_queries_pure_witness :
    (get_client_inputs_for_turn { initFM 5 with clients := [3, 4] } 2).2
      = { initFM 5 with clients := [3, 4] } ∧
    (get_client_inputs_for_turn { initFM 5 with clients := [3, 4] } 2).1
      = [(3, []), (4, [])] :=
  ⟨(C10_read_queries_pure { initFM 5 with clients := [3, 4] } 2 0).1,
   (C10_read_queries_pure { initFM 5 with clients := [3, 4] } 2 0).2.2.2 (by decide)⟩

/-- Projecting the keys out of a row built over a key list gives back that
key list. -/
lemma map_fst_pairs {β : Type} (f : Nat → β) (l : List Nat) :
    (l.map (fun c => (c, f c))).map Prod.fst = l := by
  induction l with
  | nil => rfl
  | cons a l ih => simp [ih]

/-- C4: every `input_frame` message built by `prepare_input_broadcast` has a
turn-boundary `current_frame` (divisible by the turn size), its key set is
exactly the connected-client set at finalization time, and each client's value
is its stored history list, defaulting to the empty list for clients without
observed input. -/
theorem C4_broadcast_wellformed :
    ∀ fm : FrameManager,
      (prepare_input_broadcast fm).1.current_frame % fm.turn_size = 0 ∧
      (prepare_input_broadcast fm).1.inputs.map Prod.fst = fm.clients ∧
      (prepare_input_broadcast fm).1.inputs
        = fm.clients.map (fun c =>
            (c, (historyLookup fm.input_history (fm.current_frame / fm.turn_size) c).getD [])) := by
  intro fm
  refine ⟨?_, ?_, ?_⟩
  · rw [prepare_input_broadcast]
    exact Nat.mul_mod_left _ _
  · rw [prepare_input_broadcast]
    simp only [get_client_inputs_for_turn_spec]
    exact map_fst_pairs _ _
  · rw [prepare_input_broadcast]
    simp [get_client_inputs_for_turn_spec]

/-- A manager state in which turn 1 has never been finalized: one connected
client, empty staging buffer and turn table, no turn processed yet. -/
def c2FM : FrameManager := { initFM 5 with clients := [1] }

/-- C2 counterexample: the claim says a requested frame whose turn has not
been finalized is omitted from the `frame_response`.  In the state `c2FM`
turn 1 (containing frame 5) has not been finalized — the turn table has no
row for it and `last_processed_turn` is still -1 — yet the response to
`request_frames [5]` carries an entry keyed by frame 5. -/
theorem C2_counterexample :
    c2FM.last_processed_turn = -1 ∧
    ddMem c2FM.input_history 1 = false ∧
    (handle_request_frames c2FM [5]).1 = [(5, [(1, [])])] := by
  decide

/-- C2 amended: the `frame_response` contains an entry for every requested
frame, whether or not its turn has been finalized; a frame whose turn has no
turn-table row is answered with a row mapping every connected client to the
empty list, and the request mutates nothing. -/
theorem C2_response_contains_all_requested :
    ∀ (fm : FrameManager) (frames : List Nat),
      (handle_request_frames fm frames).1
        = frames.map (fun f => (collect_inputs_for_frame fm f).1) ∧
      (handle_request_frames fm frames).2 = fm ∧
      (∀ f ∈ frames, ddMem fm.input_history (f / fm.turn_size) = false →
        (f, fm.clients.map (fun c => (c, ([] : List RawInput))))
          ∈ (handle_request_frames fm frames).1) := by
  have hfold : ∀ (fm : FrameManager) (frames : List Nat) (acc : List (Nat × Row)),
      frames.foldl
        (fun (a : List (Nat × Row) × FrameManager) f =>
          let p := collect_inputs_for_frame a.2 f
          (a.1 ++ [p.1], p.2))
        (acc, fm)
      = (acc ++ frames.map (fun f => (collect_inputs_for_frame fm f).1), fm) := by
    intro fm frames
    induction frames with
    | nil => simp
    | cons f rest ih =>
      intro acc
      have hpure : (collect_inputs_for_frame fm f).2 = fm :=
        (C10_read_queries_pure fm 0 f).2.1
      rw [List.foldl_cons]
      simp only [hpure]
      rw [ih]
      simp
  intro fm frames
  refine ⟨?_, ?_, ?_⟩
  · rw [handle_request_frames, hfold]
    simp
  · rw [handle_request_frames, hfold]
  · intro f hf hmem
    rw [handle_request_frames, hfold]
    simp only [List.nil_append]
    have hval : (collect_inputs_for_frame fm f).1
        = (f, fm.clients.map (fun c => (c, ([] : List RawInput)))) := by
      have h1 := (C10_read_queries_pure fm (f / fm.turn_size) f).2.2.1
      have h2 : ddFind fm.input_history (f / fm.turn_size) = none := by
        cases hx : ddFind fm.input_history (f / fm.turn_size) with
        | none => rfl
        | some row => simp [ddMem, hx] at hmem
      rw [h1]
      simp [historyLookup, h2]
    exact hval ▸ List.mem_map_of_mem _ hf

/-- Witness for C2 amended, at the concrete state of the counterexample. -/
theorem C2_response_contains_all_requested_witness :
    (5, [(1, ([] : List RawInput))]) ∈ (handle_request_frames c2FM [5]).1 :=
  (C2_response_contains_all_requested c2FM [5]).2.2 5 (by decide) (by decide)

/-- Unfolding of `process_inputs_for_turn` on a turn that is not yet
processed. -/
lemma process_new (fm : FrameManager) (t : Nat)
    (h : ¬ ((t : Nat) : Int) ≤ fm.last_processed_turn) :
    process_inputs_for_turn fm t
      = ({ fm with
            input_history := fm.input_buffer.foldl
              (fun H p => if p.2.isEmpty then H else historySetIn H t p.1 p.2)
              fm.input_history
            input_buffer := []
            last_processed_turn := ((t : Nat) : Int) },
         [ServerEvent.finalize t]) := by
  rw [process_inputs_for_turn, if_neg h]

/-- Unfolding of `process_inputs_for_turn` on an already-processed turn. -/
lemma process_old (fm : FrameManager) (t : Nat)
    (h : ((t : Nat) : Int) ≤ fm.last_processed_turn) :
    process_inputs_for_turn fm t = (fm, []) := by
  rw [process_inputs_for_turn, if_pos h]

/-- Unfolding of `prepare_input_broadcast` in explicit form. -/
lemma prepare_spec (fm : FrameManager) :
    prepare_input_broadcast fm
      = (⟨fm.current_frame / fm.turn_size * fm.turn_size,
          fm.clients.map (fun c =>
            (c, (historyLookup fm.input_history (fm.current_frame / fm.turn_size) c).getD []))⟩,
         { fm with
            last_broadcast_frame :=
              ((fm.current_frame / fm.turn_size * fm.turn_size : Nat) : Int) }) := by
  rw [prepare_input_broadcast, get_client_inputs_for_turn_spec]

/-- Unfolding of `game_tick` on an iteration that advances to a turn
boundary. -/
lemma game_tick_boundary (fm : FrameManager) (F : Nat)
    (hlt : fm.current_frame < F) (hmod : F % fm.turn_size = 0) :
    game_tick fm F
      = ((prepare_input_broadcast
            (process_inputs_for_turn { fm with current_frame := F }
              (F / fm.turn_size)).1).2,
         (process_inputs_for_turn { fm with current_frame := F }
            (F / fm.turn_size)).2
          ++ [ServerEvent.broadcast
                (prepare_input_broadcast
                  (process_inputs_for_turn { fm with current_frame := F }
                    (F / fm.turn_size)).1).1]) := by
  rw [game_tick, if_pos hlt,
    if_pos (show F % ({ fm with current_frame := F } : FrameManager).turn_size = 0
      from hmod)]

/-- C3: in any tick-loop iteration in which the server's frame advances to a
turn boundary `F` whose turn is not yet processed, the observable events are
exactly the finalization of turn `F / turn_size` followed by the broadcast of
the `input_frame` message for frame `F`, and afterwards no input can be
finalized into that turn (or an earlier one) again: `process_inputs_for_turn`
is a no-op for every turn index up to it. -/
theorem C3_finalize_before_broadcast :
    ∀ (fm : FrameManager) (F : Nat),
      fm.current_frame < F → F % fm.turn_size = 0 →
      fm.last_processed_turn < ((F / fm.turn_size : Nat) : Int) →
      ∃ msg : InputFrameMsg,
        (game_tick fm F).2
          = [ServerEvent.finalize (F / fm.turn_size), ServerEvent.broadcast msg] ∧
        msg.current_frame = F ∧
        (game_tick fm F).1.last_processed_turn = ((F / fm.turn_size : Nat) : Int) ∧
        (∀ u : Nat, ((u : Int) ≤ ((F / fm.turn_size : Nat) : Int)) →
          process_inputs_for_turn (game_tick fm F).1 u = ((game_tick fm F).1, [])) := by
  intro fm F hlt hmod hproc
  have hdvd : fm.turn_size ∣ F := Nat.dvd_of_mod_eq_zero hmod
  have hnotle : ¬ ((F / fm.turn_size : Nat) : Int) ≤ fm.last_processed_turn := by
    omega
  have hnotle1 : ¬ ((F / fm.turn_size : Nat) : Int)
      ≤ ({ fm with current_frame := F } : FrameManager).last_processed_turn := hnotle
  have hgt := game_tick_boundary fm F hlt hmod
  have hpr := process_new { fm with current_frame := F } (F / fm.turn_size) hnotle1
  refine ⟨(prepare_input_broadcast
      (process_inputs_for_turn { fm with current_frame := F }
        (F / fm.turn_size)).1).1, ?_, ?_, ?_, ?_⟩
  · rw [hgt]
    simp only [hpr]
    rfl
  · rw [hpr, prepare_spec]
    simp [Nat.div_mul_cancel hdvd]
  · rw [hgt]
    simp only [hpr, prepare_spec]
  · intro u hu
    rw [hgt]
    apply process_old
    simp only [hpr, prepare_spec]
    simpa using hu

/-- Witness for C3: from the initial manager state with turn size 5, a tick
that advances to frame 5 finalizes turn 1 and then broadcasts frame 5. -/
theorem C3_finalize_before_broadcast_witness :
    ∃ msg : InputFrameMsg,
      (game_tick (initFM 5) 5).2
        = [ServerEvent.finalize 1, ServerEvent.broadcast msg] ∧
      msg.current_frame = 5 ∧
      (game_tick (initFM 5) 5).1.last_processed_turn = (1 : Int) ∧
      (∀ u : Nat, ((u : Int) ≤ (1 : Int)) →
        process_inputs_for_turn (game_tick (initFM 5) 5).1 u
          = ((game_tick (initFM 5) 5).1, [])) :=
  C3_finalize_before_broadcast (initFM 5) 5 (by decide) (by decide) (by decide)

/-- Observable client actions during frame execution: install merged inputs
from a received row, clear the logical inputs, advance the game simulation by
one step (`game_client.update_game_state`), or send a `request_frames`
message. -/
inductive ClientEvent where
  | installInputs (data : Row)
  | clearInputs
  | stepGame
  | requestFrames (frames : List Nat)
  deriving DecidableEq, Repr

/-- State of the client `FrameExecutor` (client/frame_sync/frame_executor.py).
Wall-clock quantities (milliseconds, floats in the source) live in an
arbitrary linearly ordered additive commutative group `α`: the executor only
ever compares, adds and subtracts them, so this captures their use exactly
while keeping evaluation possible.  `latest_received_frame` starts at -1 and
is therefore an integer. -/
structure FrameExecutor (α : Type) where
  current_frame : Nat
  turn_size : Nat
  input_buffer : List (Nat × Row)
  waiting_for_input : Bool
  latest_received_frame : Int
  missing_frames : List Nat
  game_start_time : α
  logic_accumulator : α
  logic_frame_interval : α
  last_update_time : α
  logical_inputs : LogicalInputs
  deriving DecidableEq, Repr

/-- Embeds `FrameExecutor.execute_frame`: on an input frame (non-zero multiple
of the turn size) with buffered inputs, install the merged inputs, step the
game and advance; on an input frame without buffered inputs, set
`waiting_for_input` and stay; on any other frame (frame 0 included), clear the
logical inputs, step the game and advance.  Returns the new state, the success
flag and the observable events in order. -/
def execute_frame {α : Type} (fe : FrameExecutor α) :
    FrameExecutor α × Bool × List ClientEvent :=
  if fe.current_frame ≠ 0 ∧ fe.current_frame % fe.turn_size = 0 then
    match ddFind fe.input_buffer fe.current_frame with
    | some data =>
        ({ fe with
            logical_inputs := set_input_frame fe.logical_inputs data
            current_frame := fe.current_frame + 1
            waiting_for_input := false },
         true, [ClientEvent.installInputs data, ClientEvent.stepGame])
    | none => ({ fe with waiting_for_input := true }, false, [])
  else
    ({ fe with
        logical_inputs := set_non_input
        current_frame := fe.current_frame + 1 },
     true, [ClientEvent.clearInputs, ClientEvent.stepGame])

/-- Embeds `FrameExecutor.execute_catch_up`: compute the turn-boundary frames
missing from the input buffer between the current frame and the latest
received frame; if any, record them, request them and fail, else execute the
current frame. -/
def execute_catch_up {α : Type} (fe : FrameExecutor α) :
    FrameExecutor α × Bool × List ClientEvent :=
  let len := (fe.latest_received_frame + 1 - (fe.current_frame : Int)).toNat
  let needed := (List.range' fe.current_frame len).filter
    (fun f => f % fe.turn_size == 0 && !(ddMem fe.input_buffer f))
  if needed.isEmpty then execute_frame fe
  else
    ({ fe with missing_frames := needed, waiting_for_input := true },
     false, [ClientEvent.requestFrames needed])

/-- Embeds the while loop of `FrameExecutor.execute_logic_frame`.  One
iteration runs while the accumulator holds at least one frame interval: it
catches up or executes the current frame, breaks on failure, else consumes one
interval, counts the frame and breaks once the count exceeds 10.  The count
check bounds the recursion depth at 11, so the structural `fuel` argument
(11 at the call site) is never exhausted. -/
def execLoop {α : Type} [LinearOrderedAddCommGroup α]
    (fe : FrameExecutor α) (framesExecuted : Nat) (fuel : Nat) :
    FrameExecutor α × Nat × List ClientEvent :=
  match fuel with
  | 0 => (fe, framesExecuted, [])
  | fuel + 1 =>
    if fe.logic_frame_interval ≤ fe.logic_accumulator then
      let r := if (fe.current_frame : Int) < fe.latest_received_frame
               then execute_catch_up fe else execute_frame fe
      if r.2.1 then
        let fe2 := { r.1 with
          logic_accumulator := r.1.logic_accumulator - r.1.logic_frame_interval }
        let n := framesExecuted + 1
        if 10 < n then (fe2, n, r.2.2)
        else
          let rest := execLoop fe2 n fuel
          (rest.1, rest.2.1, r.2.2 ++ rest.2.2)
      else (r.1, framesExecuted, r.2.2)
    else (fe, framesExecuted, [])

/-- Embeds `FrameExecutor.execute_logic_frame`: before the start time nothing
happens; the first call after the start initializes `last_update_time`;
otherwise the elapsed time is accumulated and the frame loop runs.  Returns
the new state, the number of logic frames executed and the events. -/
def execute_logic_frame {α : Type} [LinearOrderedAddCommGroup α]
    (fe : FrameExecutor α) (current_time : α) :
    FrameExecutor α × Nat × List ClientEvent :=
  if current_time < fe.game_start_time then (fe, 0, [])
  else if fe.last_update_time = 0 then
    ({ fe with last_update_time := fe.game_start_time }, 0, [])
  else
    let delta := current_time - fe.last_update_time
    let fe1 := { fe with
      last_update_time := current_time
      logic_accumulator := fe.logic_accumulator + delta }
    execLoop fe1 0 11

/-- C5: the client advances past frame `f` exactly as follows.  When `f` is a
non-zero multiple of the turn size, it advances (by one frame) only when the
input buffer holds a row for `f`, and then only after installing the merged
inputs and before stepping; with no buffered row it sets `waiting_for_input`
and does not advance.  Any other frame — frame 0 included — clears the
logical inputs and advances unconditionally. -/
theorem C5_client_advance :
    ∀ {α : Type} (fe : FrameExecutor α),
      (fe.current_frame ≠ 0 → fe.current_frame % fe.turn_size = 0 →
        (∀ data : Row, ddFind fe.input_buffer fe.current_frame = some data →
          (execute_frame fe).1.current_frame = fe.current_frame + 1 ∧
          (execute_frame fe).1.logical_inputs
            = set_input_frame fe.logical_inputs data ∧
          (execute_frame fe).2
            = (true, [ClientEvent.installInputs data, ClientEvent.stepGame])) ∧
        (ddFind fe.input_buffer fe.current_frame = none →
          (execute_frame fe).1.current_frame = fe.current_frame ∧
          (execute_frame fe).1.waiting_for_input = true ∧
          (execute_frame fe).2 = (false, []))) ∧
      ((fe.current_frame = 0 ∨ fe.current_frame % fe.turn_size ≠ 0) →
        (execute_frame fe).1.current_frame = fe.current_frame + 1 ∧
        (execute_frame fe).1.logical_inputs = set_non_input ∧
        (execute_frame fe).2
          = (true, [ClientEvent.clearInputs, ClientEvent.stepGame])) := by
  intro α fe
  constructor
  · intro h0 hmod
    have hcond : fe.current_frame ≠ 0 ∧ fe.current_frame % fe.turn_size = 0 :=
      ⟨h0, hmod⟩
    constructor
    · intro data hdata
      rw [execute_frame, if_pos hcond, hdata]
      exact ⟨rfl, rfl, rfl⟩
    · intro hnone
      rw [execute_frame, if_pos hcond, hnone]
      exact ⟨rfl, rfl, rfl⟩
  · intro hor
    have hcond : ¬ (fe.current_frame ≠ 0 ∧ fe.current_frame % fe.turn_size = 0) := by
      rcases hor with h | h
      · exact fun hc => hc.1 h
      · exact fun hc => h hc.2
    rw [execute_frame, if_neg hcond]
    exact ⟨rfl, rfl, rfl⟩

/-- Concrete executor state at frame 5 with the input frame buffered. -/
def c5WithInput : FrameExecutor Int :=
  { current_frame := 5, turn_size := 5, input_buffer := [(5, [(1, [])])],
    waiting_for_input := false, latest_received_frame := 5,
    missing_frames := [], game_start_time := 0, logic_accumulator := 0,
    logic_frame_interval := 1, last_update_time := 0, logical_inputs := [] }

/-- Concrete executor state at frame 5 with an empty input buffer. -/
def c5NoInput : FrameExecutor Int :=
  { c5WithInput with input_buffer := [] }

/-- Concrete executor state at frame 0. -/
def c5Frame0 : FrameExecutor Int :=
  { c5WithInput with current_frame := 0, input_buffer := [] }

/-- Witness for C5 at concrete executor states: frame 5 with a buffered row
advances, frame 5 without a row waits, frame 0 advances without input. -/
theorem C5_client_advance_witness :
    (execute_frame c5WithInput).1.current_frame = 6 ∧
    (execute_frame c5NoInput).2 = (false, []) ∧
    (execute_frame c5Frame0).1.current_frame = 1 :=
  ⟨(((C5_client_advance c5WithInput).1 (by decide) (by decide)).1
      [(1, [])] (by decide)).1,
   (((C5_client_advance c5NoInput).1 (by decide) (by decide)).2 (by decide)).2.2,
   ((C5_client_advance c5Frame0).2 (Or.inl (by decide))).1⟩

/-- Executor state with twelve frame intervals of accumulated time, one
frame already executed at start, and the input frames for frames 5 and 10
buffered, so that eleven consecutive frame executions can succeed in one
update call. -/
def c7State : FrameExecutor Int :=
  { current_frame := 1, turn_size := 5,
    input_buffer := [(5, []), (10, [])],
    waiting_for_input := false, latest_received_frame := 10,
    missing_frames := [], game_start_time := 0, logic_accumulator := 0,
    logic_frame_interval := 25, last_update_time := 1, logical_inputs := [] }

/-- C7: evaluation of the embedded `execute_logic_frame` at `c7State` with 300
milliseconds (= 12 frame intervals) of elapsed time.  The loop executes 11
logic frames — `current_frame` rises from 1 to 12 — because the source breaks
only once `frames_executed > 10`, after the eleventh frame has already run,
although the spec (and the source's own comment) cap one invocation at 10
frames. -/
theorem C7_cap_exceeded :
    (execute_logic_frame c7State 301).2.1 = 11 ∧
    (execute_logic_frame c7State 301).1.current_frame = 12 :=
  ⟨rfl, rfl⟩

/-- Error channel claimed by the spec for deterministic-engine misuse. -/
inductive InvariantViolation where
  | unseededPRNG
  deriving DecidableEq, Repr

/-- State of `DeterministicRandom` (common/deterministic_engine.py): the seed
the underlying `random.Random` instance was last seeded with; `none` models
`seed=None`, for which the platform RNG seeds itself from system entropy. -/
structure DeterministicRandom where
  stored_seed : Option Int
  deriving DecidableEq, Repr

/-- Embeds `DeterministicRandom.__init__`: create the platform RNG and seed it
with the given seed (possibly `None`).  The constructor performs no check and
cannot raise; the `Except` result type makes the failure channel claimed by
the spec expressible. -/
def DeterministicRandom.init (seed : Option Int) :
    Except InvariantViolation DeterministicRandom :=
  Except.ok { stored_seed := seed }

/-- Embeds `DeterministicRandom.seed`: reseed the platform RNG and return the
seed; it performs no check and cannot raise. -/
def DeterministicRandom.reseed (r : DeterministicRandom) (seed : Option Int) :
    Except InvariantViolation (DeterministicRandom × Option Int) :=
  Except.ok ({ r with stored_seed := seed }, seed)

/-- C8 counterexample: the claim says constructing the PRNG without a seed
fails with an `InvariantViolation`; the embedded constructor applied to `none`
returns successfully instead. -/
theorem C8_counterexample :
    DeterministicRandom.init none = Except.ok { stored_seed := none } := rfl

/-- C8 amended: constructing or reseeding the PRNG never fails, with or
without a seed; an absent seed is delegated to the platform RNG's entropy
self-seeding and no `InvariantViolation` is raised anywhere. -/
theorem C8_prng_never_fails :
    ∀ (s : Option Int) (r : DeterministicRandom),
      DeterministicRandom.init s = Except.ok { stored_seed := s } ∧
      r.reseed s = Except.ok ({ r with stored_seed := s }, s) := by
  intro s r
  exact ⟨rfl, rfl⟩

/-- Observable connection-handling actions of `GameServer.handle_client`:
closing the socket with a code and reason, sending `welcome`, broadcasting
`game_ready`. -/
inductive ConnEvent where
  | closed (code : Nat) (reason : String)
  | welcomed (client_id : Nat)
  | gameReady (players : Nat)
  deriving DecidableEq, Repr

/-- State of the `GameServer` (server/main.py): the websocket-to-client-id
registry, the per-client details (ready flag), the connection phase flag and
the frame manager.  Websockets are modelled as opaque `Nat` values. -/
structure GameServer where
  required_players : Nat
  connection_phase : Bool
  clients : List (Nat × Nat)
  client_details : List (Nat × Bool)
  fm : FrameManager
  deriving DecidableEq, Repr

/-- Embeds the admission part of `GameServer.handle_client`, up to the
`game_ready` broadcast: when the game has started the connection is closed
with reason "Game already in progress" and nothing is registered; otherwise
the peer gets a fresh client id (`newId`, a uuid in the source), is entered
into the registries and the frame manager, is welcomed, and `game_ready` is
broadcast once enough players are connected during the connection phase. -/
def handle_connect (gs : GameServer) (ws newId : Nat) :
    GameServer × List ConnEvent :=
  if gs.fm.game_started then
    (gs, [ConnEvent.closed 1000 "Game already in progress"])
  else
    let gs1 : GameServer :=
      { gs with
          clients := ddWrite gs.clients ws newId
          client_details := ddWrite gs.client_details newId false
          fm := add_client gs.fm newId }
    if gs1.connection_phase ∧ gs1.required_players ≤ gs1.clients.length then
      (gs1, [ConnEvent.welcomed newId, ConnEvent.gameReady gs1.clients.length])
    else
      (gs1, [ConnEvent.welcomed newId])

/-- Session states of the spec's state machine, as far as they are
distinguishable at admission time. -/
inductive SessionState where
  | LOBBY
  | READY
  | SCHEDULED_OR_RUNNING
  deriving DecidableEq, Repr

/-- Following the spec's words (the state machine of the server turn manager):
the session is in LOBBY while still admitting below the required player count,
in READY once all required players are connected but the game has not been
scheduled, and in SCHEDULED or RUNNING once the game has started
(`game_started` is set exactly by the READY-to-SCHEDULED transition).  The
source does not reify these states; this classifier maps its observable state
onto them for comparison. -/
def specSessionState (gs : GameServer) : SessionState :=
  if gs.fm.game_started then SessionState.SCHEDULED_OR_RUNNING
  else if gs.required_players ≤ gs.clients.length then SessionState.READY
  else SessionState.LOBBY

/-- A server with both required players connected but the game not yet
started: the spec's READY state. -/
def c6Server : GameServer :=
  { required_players := 2
    connection_phase := true
    clients := [(0, 10), (1, 11)]
    client_details := [(10, false), (11, false)]
    fm := { initFM 5 with clients := [10, 11] } }

/-- C6 counterexample: the claim says every connection attempt in a non-LOBBY
state (READY included) is closed with "Game already in progress" and the peer
is never registered.  In the READY state `c6Server`, a third connection is
instead welcomed, assigned the fresh id, registered in the client registry
and the frame manager, and even triggers another `game_ready` broadcast. -/
theorem C6_counterexample :
    specSessionState c6Server = SessionState.READY ∧
    (handle_connect c6Server 2 12).2
      = [ConnEvent.welcomed 12, ConnEvent.gameReady 3] ∧
    (handle_connect c6Server 2 12).1.clients = [(0, 10), (1, 11), (2, 12)] ∧
    (handle_connect c6Server 2 12).1.fm.clients = [10, 11, 12] := by
  decide

/-- C6 amended: a connection attempt is rejected with close-reason "Game
already in progress" — with no id assigned and no registration — exactly when
`game_started` is set, i.e. in the SCHEDULED and RUNNING states; in LOBBY and
READY the peer is welcomed and registered instead. -/
theorem C6_reject_iff_started :
    ∀ (gs : GameServer) (ws newId : Nat),
      (gs.fm.game_started = true →
        handle_connect gs ws newId
          = (gs, [ConnEvent.closed 1000 "Game already in progress"])) ∧
      (gs.fm.game_started = false →
        (handle_connect gs ws newId).1.clients = ddWrite gs.clients ws newId ∧
        (handle_connect gs ws newId).1.fm = add_client gs.fm newId ∧
        ConnEvent.welcomed newId ∈ (handle_connect gs ws newId).2 ∧
        (∀ code reason, ConnEvent.closed code reason ∉ (handle_connect gs ws newId).2)) := by
  intro gs ws newId
  constructor
  · intro h
    rw [handle_connect, if_pos h]
  · intro h
    have hns : ¬ gs.fm.game_started = true := by simp [h]
    rw [handle_connect, if_neg hns]
    by_cases hc : gs.connection_phase ∧
        gs.required_players ≤ (ddWrite gs.clients ws newId).length
    · rw [if_pos hc]
      refine ⟨rfl, rfl, by simp, ?_⟩
      intro code reason hmem
      simp at hmem
    · rw [if_neg hc]
      refine ⟨rfl, rfl, by simp, ?_⟩
      intro code reason hmem
      simp at hmem

/-- Witness for C6 amended: a started game rejects, the READY state admits. -/
theorem C6_reject_iff_started_witness :
    handle_connect { c6Server with fm := { c6Server.fm with game_started := true } } 2 12
      = ({ c6Server with fm := { c6Server.fm with game_started := true } },
         [ConnEvent.closed 1000 "Game already in progress"]) ∧
    ConnEvent.welcomed 12 ∈ (handle_connect c6Server 2 12).2 :=
  ⟨(C6_reject_iff_started
      { c6Server with fm := { c6Server.fm with game_started := true } } 2 12).1 rfl,
   ((C6_reject_iff_started c6Server 2 12).2 rfl).2.2.1⟩

/-- All raw inputs stored in a row are non-empty. -/
def RowNonEmpty (r : Row) : Prop :=
  ∀ p ∈ r, ∀ i ∈ p.2, is_input_empty i = false

/-- All raw inputs stored anywhere in a turn table are non-empty. -/
def HistNonEmpty (H : History) : Prop :=
  ∀ q ∈ H, RowNonEmpty q.2

/-- The C9 invariant: neither the staging buffer nor any turn-table row ever
contains the empty raw input. -/
def FMInv (fm : FrameManager) : Prop :=
  RowNonEmpty fm.input_buffer ∧ HistNonEmpty fm.input_history

/-- The empty row satisfies the invariant. -/
lemma RowNonEmpty_nil : RowNonEmpty ([] : Row) := by
  intro p hp
  cases hp

/-- A single empty-list binding satisfies the invariant. -/
lemma RowNonEmpty_single_empty (c : Nat) : RowNonEmpty [(c, [])] := by
  intro p hp i hi
  rcases List.mem_singleton.mp hp with rfl
  cases hi

/-- Deleting a key preserves the row invariant. -/
lemma RowNonEmpty_ddErase {r : Row} {c : Nat} (h : RowNonEmpty r) :
    RowNonEmpty (ddErase r c) := by
  intro p hp
  exact h p (List.mem_of_mem_filter hp)

/-- Appending a fresh empty-list binding preserves the row invariant. -/
lemma RowNonEmpty_append_single_empty {r : Row} {c : Nat} (h : RowNonEmpty r) :
    RowNonEmpty (r ++ [(c, [])]) := by
  intro p hp i hi
  rcases List.mem_append.mp hp with hp1 | hp1
  · exact h p hp1 i hi
  · rcases List.mem_singleton.mp hp1 with rfl
    cases hi

/-- Writing a list of non-empty inputs preserves the row invariant. -/
lemma RowNonEmpty_ddWrite {r : Row} {c : Nat} {v : List RawInput}
    (h : RowNonEmpty r) (hv : ∀ i ∈ v, is_input_empty i = false) :
    RowNonEmpty (ddWrite r c v) := by
  intro p hp
  rcases mem_ddWrite hp with he | hin
  · rw [he]
    exact hv
  · exact h p hin

/-- Writing an invariant-satisfying row preserves the turn-table invariant. -/
lemma HistNonEmpty_ddWrite {H : History} {t : Nat} {v : Row}
    (h : HistNonEmpty H) (hv : RowNonEmpty v) : HistNonEmpty (ddWrite H t v) := by
  intro q hq
  rcases mem_ddWrite hq with he | hin
  · rw [he]
    exact hv
  · exact h q hin

/-- Appending a fresh empty row preserves the turn-table invariant. -/
lemma HistNonEmpty_append_single_empty {H : History} {t : Nat}
    (h : HistNonEmpty H) : HistNonEmpty (H ++ [(t, [])]) := by
  intro q hq
  rcases List.mem_append.mp hq with hq1 | hq1
  · exact h q hq1
  · rcases List.mem_singleton.mp hq1 with rfl
    exact RowNonEmpty_nil

/-- Appending a non-empty input to a staging list preserves the buffer
invariant. -/
lemma RowNonEmpty_ddAppend {d : Row} {c : Nat} {i : RawInput}
    (h : RowNonEmpty d) (hi : is_input_empty i = false) :
    RowNonEmpty (ddAppend d c i) := by
  rw [ddAppend]
  cases hf : ddFind d c with
  | some l =>
    simp only [ddIndex, hf]
    refine RowNonEmpty_ddWrite h ?_
    intro j hj
    rcases List.mem_append.mp hj with hj1 | hj1
    · exact h (c, l) (ddFind_mem hf) j hj1
    · rcases List.mem_singleton.mp hj1 with rfl
      exact hi
  | none =>
    simp only [ddIndex, hf]
    refine RowNonEmpty_ddWrite (RowNonEmpty_append_single_empty h) ?_
    intro j hj
    rcases List.mem_append.mp hj with hj1 | hj1
    · cases hj1
    · rcases List.mem_singleton.mp hj1 with rfl
      exact hi

/-- Storing a list of non-empty inputs into the nested turn table preserves
the turn-table invariant. -/
lemma HistNonEmpty_historySetIn {H : History} {t c : Nat} {v : List RawInput}
    (h : HistNonEmpty H) (hv : ∀ i ∈ v, is_input_empty i = false) :
    HistNonEmpty (historySetIn H t c v) := by
  rw [historySetIn]
  cases hf : ddFind H t with
  | some row =>
    have hrow : RowNonEmpty row := h (t, row) (ddFind_mem hf)
    simp only [ddIndex, hf]
    exact HistNonEmpty_ddWrite h (RowNonEmpty_ddWrite hrow hv)
  | none =>
    simp only [ddIndex, hf]
    exact HistNonEmpty_ddWrite (HistNonEmpty_append_single_empty h)
      (RowNonEmpty_ddWrite RowNonEmpty_nil hv)

/-- Touching an entry of the nested turn table (the start-of-game row
initialization) preserves the turn-table invariant. -/
lemma HistNonEmpty_historyTouch {H : History} {t c : Nat}
    (h : HistNonEmpty H) : HistNonEmpty (historyTouch H t c) := by
  rw [historyTouch]
  cases hf : ddFind H t with
  | some row =>
    have hrow : RowNonEmpty row := h (t, row) (ddFind_mem hf)
    simp only [ddIndex, hf]
    cases hc : ddFind row c with
    | some l =>
      simp only [hc]
      exact HistNonEmpty_ddWrite h hrow
    | none =>
      simp only [hc]
      exact HistNonEmpty_ddWrite h (RowNonEmpty_append_single_empty hrow)
  | none =>
    simp only [ddIndex, hf, ddFind]
    exact HistNonEmpty_ddWrite (HistNonEmpty_append_single_empty h)
      (RowNonEmpty_append_single_empty RowNonEmpty_nil)

/-- The finalization fold of `process_inputs_for_turn` preserves the
turn-table invariant when the staging buffer satisfies the buffer
invariant. -/
lemma hist_foldl_inv (t : Nat) :
    ∀ (buf : Row) (H : History), RowNonEmpty buf → HistNonEmpty H →
      HistNonEmpty (buf.foldl
        (fun H p => if p.2.isEmpty then H else historySetIn H t p.1 p.2) H) := by
  intro buf
  induction buf with
  | nil => intro H _ hH; exact hH
  | cons p rest ih =>
    intro H hbuf hH
    rw [List.foldl_cons]
    have hrest : RowNonEmpty rest := fun q hq => hbuf q (List.mem_cons_of_mem p hq)
    by_cases hemp : p.2.isEmpty
    · rw [if_pos hemp]
      exact ih H hrest hH
    · rw [if_neg hemp]
      exact ih _ hrest
        (HistNonEmpty_historySetIn hH (hbuf p (List.mem_cons_self p rest)))

/-- The turn-0 initialization fold of `start_game` preserves the turn-table
invariant. -/
lemma touch_foldl_inv :
    ∀ (cs : List Nat) (H : History), HistNonEmpty H →
      HistNonEmpty (cs.foldl (fun H c => historyTouch H 0 c) H) := by
  intro cs
  induction cs with
  | nil => intro H hH; exact hH
  | cons c rest ih =>
    intro H hH
    rw [List.foldl_cons]
    exact ih _ (HistNonEmpty_historyTouch hH)

/-- The mutating operations of the server `FrameManager`, as invoked from
`GameServer` (server/main.py): client (de)registration, input ingestion, turn
finalization, readiness marking, game start, tick-loop frame advance and
reset. -/
inductive FMOp where
  | addClient (c : Nat)
  | removeClient (c : Nat)
  | receiveInput (c : Nat) (i : RawInput)
  | processTurn (t : Nat)
  | markReady (c : Nat)
  | startGame (now delay_ms : Int)
  | setFrame (f : Nat)
  | reset
  deriving DecidableEq, Repr

/-- Apply one `FrameManager` operation. -/
def applyOp (fm : FrameManager) : FMOp → FrameManager
  | FMOp.addClient c => add_client fm c
  | FMOp.removeClient c => remove_client fm c
  | FMOp.receiveInput c i => receive_input fm c i
  | FMOp.processTurn t => (process_inputs_for_turn fm t).1
  | FMOp.markReady c => mark_client_ready fm c
  | FMOp.startGame now delay_ms => (start_game fm now delay_ms).1
  | FMOp.setFrame f => { fm with current_frame := f }
  | FMOp.reset => resetFM fm

/-- Apply a sequence of `FrameManager` operations. -/
def runOps (fm : FrameManager) (ops : List FMOp) : FrameManager :=
  ops.foldl applyOp fm

/-- Every single operation preserves the C9 invariant. -/
lemma applyOp_inv (fm : FrameManager) (op : FMOp) (h : FMInv fm) :
    FMInv (applyOp fm op) := by
  obtain ⟨hbuf, hhist⟩ := h
  cases op with
  | addClient c => exact ⟨hbuf, hhist⟩
  | removeClient c =>
    refine ⟨?_, hhist⟩
    show RowNonEmpty (if ddMem fm.input_buffer c then ddErase fm.input_buffer c
      else fm.input_buffer)
    split
    · exact RowNonEmpty_ddErase hbuf
    · exact hbuf
  | receiveInput c i =>
    by_cases he : is_input_empty i
    · show FMInv (receive_input fm c i)
      rw [receive_input, if_pos he]
      exact ⟨hbuf, hhist⟩
    · show FMInv (receive_input fm c i)
      rw [receive_input, if_neg he]
      exact ⟨RowNonEmpty_ddAppend hbuf (by simpa using he), hhist⟩
  | processTurn t =>
    by_cases hle : ((t : Nat) : Int) ≤ fm.last_processed_turn
    · show FMInv (process_inputs_for_turn fm t).1
      rw [process_old fm t hle]
      exact ⟨hbuf, hhist⟩
    · show FMInv (process_inputs_for_turn fm t).1
      rw [process_new fm t hle]
      exact ⟨RowNonEmpty_nil, hist_foldl_inv t fm.input_buffer fm.input_history hbuf hhist⟩
  | markReady c => exact ⟨hbuf, hhist⟩
  | startGame now delay_ms =>
    exact ⟨hbuf, touch_foldl_inv fm.clients fm.input_history hhist⟩
  | setFrame f => exact ⟨hbuf, hhist⟩
  | reset => exact ⟨RowNonEmpty_nil, fun q hq => absurd hq (List.not_mem_nil q)⟩

/-- The C9 invariant is preserved along any operation sequence. -/
lemma inv_runOps (ops : List FMOp) :
    ∀ fm : FrameManager, FMInv fm → FMInv (runOps fm ops) := by
  induction ops with
  | nil => intro fm h; exact h
  | cons op rest ih =>
    intro fm h
    exact ih (applyOp fm op) (applyOp_inv fm op h)

/-- C9: an arriving raw input is appended to the sender's staging list iff it
is non-empty (empty inputs leave the manager untouched), and along every
operation sequence from the initial manager state neither the staging buffer
nor any turn-table row ever contains the empty raw input. -/
theorem C9_no_empty_inputs :
    (∀ (fm : FrameManager) (c : Nat) (i : RawInput),
        is_input_empty i = true → receive_input fm c i = fm) ∧
    (∀ (fm : FrameManager) (c : Nat) (i : RawInput),
        is_input_empty i = false →
        ddFind (receive_input fm c i).input_buffer c
          = some ((ddFind fm.input_buffer c).getD [] ++ [i])) ∧
    (∀ (ts : Nat) (ops : List FMOp), FMInv (runOps (initFM ts) ops)) := by
  refine ⟨?_, ?_, ?_⟩
  · intro fm c i h
    rw [receive_input, if_pos h]
  · intro fm c i h
    rw [receive_input, if_neg (by simp [h])]
    show ddFind (ddAppend fm.input_buffer c i) c = _
    rw [ddAppend]
    cases hf : ddFind fm.input_buffer c with
    | some l =>
      simp only [ddIndex, hf]
      rw [ddFind_ddWrite_self]
      simp
    | none =>
      simp only [ddIndex, hf]
      rw [ddFind_ddWrite_self]
      simp
  · intro ts ops
    refine inv_runOps ops (initFM ts) ⟨RowNonEmpty_nil, ?_⟩
    intro q hq
    cases hq

/-- Witness for C9 at concrete inputs: the empty input is dropped, a non-empty
input is appended, and a short concrete operation trace keeps the
invariant. -/
theorem C9_no_empty_inputs_witness :
    receive_input (initFM 5) 1 defaultInput = initFM 5 ∧
    ddFind (receive_input (initFM 5) 2 ⟨Movement.up, false⟩).input_buffer 2
      = some ((ddFind (initFM 5).input_buffer 2).getD [] ++ [⟨Movement.up, false⟩]) ∧
    FMInv (runOps (initFM 5)
      [FMOp.addClient 2, FMOp.receiveInput 2 ⟨Movement.up, false⟩,
       FMOp.processTurn 1]) :=
  ⟨C9_no_empty_inputs.1 (initFM 5) 1 defaultInput (by decide),
   C9_no_empty_inputs.2.1 (initFM 5) 2 ⟨Movement.up, false⟩ (by decide),
   C9_no_empty_inputs.2.2 5
     [FMOp.addClient 2, FMOp.receiveInput 2 ⟨Movement.up, false⟩,
      FMOp.processTurn 1]⟩

end TankWar
